import Mathlib

/-!
Shallow embedding of the module-lifecycle core of the edge agent
(`edgelet-docker/src/runtime.rs`): the environment-merge logic, the
identifier validation on lifecycle and registry operations, graceful-stop
timeout composition, network bootstrap (`init`), `remove_all`, the
ownership-filtered `list` name derivation, and the `list_with_details`
reconciliation scan.

Rust strings that undergo character-level processing are modelled as
`List Char`; container names, which the code slices at a byte index, are
modelled as `List Nat` byte sequences.  `HashMap` build-up via `extend` /
`insert` is modelled by an association list with overwrite-on-collision
(`upsert`); statements about `HashMap`-ordered output are made at the
level of membership and key multisets, which are iteration-order
invariant.
-/

namespace EdgeletDocker

/-- Character-list strings, used where the Rust code processes string
contents (env entries, keys, values). -/
abbrev Str := List Char

/-- Insert a key/value pair into an association list, overwriting the
value of an existing binding of the same key and appending otherwise.
This models `HashMap::insert` and the per-element effect of
`HashMap::extend`: a later insertion for an existing key replaces the
stored value. -/
def upsert {α β : Type} [DecidableEq α] (m : List (α × β)) (kv : α × β) :
    List (α × β) :=
  if m.any (fun p => p.1 = kv.1) then
    m.map (fun p => if p.1 = kv.1 then kv else p)
  else
    m ++ [kv]

/-- Split an env entry at the first `'='`, as `s.splitn(2, '=')` does in
`merge_env`: the key is everything before the first `'='`, the value is
the remainder (empty when no `'='` occurs, matching `unwrap_or("")`). -/
def splitEq : Str → Str × Str
  | [] => ([], [])
  | c :: rest =>
    if c = '=' then ([], rest)
    else ((splitEq rest).1.cons c, (splitEq rest).2)

/-- Reassemble a key/value pair into a `"KEY=VALUE"` entry, as
`format!("{}={}", key, value)` does. -/
def entryOf (kv : Str × Str) : Str := kv.1 ++ '=' :: kv.2

/-- The key of an env entry: the part before the first `'='`. -/
def keyOf (s : Str) : Str := (splitEq s).1

/-- Embedding of `DockerModuleRuntime::merge_env`.  The merged map is
seeded with `new_env` (the spec's env mapping) and then extended with the
parsed entries of `cur_env` (`createOptions.env`); `HashMap::extend`
overwrites on key collision, so `cur_env` bindings replace `new_env`
bindings of the same key.  The output collects `"KEY=VALUE"` entries of
the final map (the Rust `Vec` is in arbitrary `HashMap` iteration order;
this model fixes insertion order, and all theorems below are
order-invariant). -/
def merge_env (cur_env : Option (List Str)) (new_env : List (Str × Str)) :
    List Str :=
  let m := new_env.foldl upsert []
  let m := match cur_env with
    | some env => env.foldl (fun acc s => upsert acc (splitEq s)) m
    | none => m
  m.map entryOf

/-- Modelled from the spec: the error taxonomy of §7 (validation,
not-found, engine, serialization); the `error.rs` module of
`edgelet-docker` is not under `src/`.  `notFound` carries the resource
description, as `ErrorKind::NotFound(String)` does at its use site in
`list_with_details`. -/
inductive ErrorKind where
  | validation
  | notFound (resource : String)
  | engine (message : String)
  | serialization
deriving DecidableEq

/-- Modelled from the spec: `fensure_not_empty!` (from `edgelet-utils`,
not under `src/`) fails an operation with a validation error when the
identifier is empty after trimming whitespace.  A string is blank exactly
when all of its characters are whitespace (so the empty string is
blank). -/
def is_blank (s : String) : Bool := s.toList.all (fun c => c.isWhitespace)

/-- The fields of the engine's `ContainerCreateBody` that `create` and
`list` read or write: the env list, the label mapping and the image
(other fields are carried through untouched, so they are elided). -/
structure ContainerCreateBody where
  env : Option (List Str)
  labels : Option (List (String × String))
  image : Option String
deriving DecidableEq

/-- Modelled from the spec: `LogOptions {tail: string, follow: bool}`
(the `LogOptions` type lives in `edgelet-core`, not under `src/`; the
code reads `options.follow()` and `options.tail().to_string()`). -/
structure LogOptions where
  follow : Bool
  tail : String
deriving DecidableEq

/-- The engine requests the runtime composes.  Each constructor carries
the positional arguments the code passes to the corresponding
engine-client call. -/
inductive EngineRequest where
  | imageDelete (name : String) (force : Bool) (noprune : Bool)
  | containerCreate (options : ContainerCreateBody) (name : String)
  | containerStart (id : String) (detachKeys : String)
  | containerStop (id : String) (waitBeforeKillSeconds : Nat)
  | containerRestart (id : String) (waitBeforeKillSeconds : Nat)
  | containerDelete (id : String) (removeVolumes : Bool) (force : Bool)
      (removeLink : Bool)
  | containerLogs (id : String) (follow : Bool) (stdout : Bool)
      (stderr : Bool) (since : Nat) (timestamps : Bool) (tail : String)
  | networkList (filter : String)
  | networkCreate (name : String)
deriving DecidableEq

/-- The constant `WAIT_BEFORE_KILL_SECONDS: i32 = 10` (the value is
nonnegative and below `2^31`, so `Nat` carries it exactly). -/
def WAIT_BEFORE_KILL_SECONDS : Nat := 10

/-- The ownership-label key `LABEL_KEY`. -/
def LABEL_KEY : String := "net.azure-devices.edge.owner"

/-- The ownership-label value `LABEL_VALUE`. -/
def LABEL_VALUE : String := "Microsoft.Azure.Devices.Edge.Agent"

/-- Modelled from the spec: the runtime's supported module type is
`"docker"` (`MODULE_TYPE` is declared in `module.rs`, which is not under
`src/`; `runtime.rs` imports it as `DOCKER_MODULE_TYPE`). -/
def MODULE_TYPE : String := "docker"

/-- Embedding of `ModuleRegistry::remove` for images: validate the name,
then compose `image_delete(name, false, false)`.  A validation error
means no request is composed. -/
def image_remove (name : String) : Except ErrorKind EngineRequest :=
  if is_blank name then Except.error ErrorKind.validation
  else Except.ok (EngineRequest.imageDelete name false false)

/-- Embedding of `ModuleRuntime::create`: reject a spec whose type is
not the supported module type before doing anything else; otherwise
merge the env, inject the ownership label (overwriting any prior
binding), set the image, and compose `container_create` named by the
spec.  `clone_create_options` is modelled as the identity (a clone of a
well-formed options value). -/
def create (type_ : String) (name : String) (image : String)
    (env : List (Str × Str)) (createOptions : ContainerCreateBody) :
    Except ErrorKind EngineRequest :=
  if type_ = MODULE_TYPE then
    let merged_env := merge_env createOptions.env env
    let labels := upsert (createOptions.labels.getD []) (LABEL_KEY, LABEL_VALUE)
    Except.ok (EngineRequest.containerCreate
      { createOptions with
          image := some image
          env := some merged_env
          labels := some labels }
      name)
  else Except.error ErrorKind.validation

/-- Embedding of `ModuleRuntime::start`: validate the id, then compose
`container_start(id, "")`. -/
def start (id : String) : Except ErrorKind EngineRequest :=
  if is_blank id then Except.error ErrorKind.validation
  else Except.ok (EngineRequest.containerStart id "")

/-- Embedding of `ModuleRuntime::stop`: validate the id, then compose
`container_stop` with the kill-grace seconds: the default when no
duration is given, otherwise the duration's whole seconds clamped at
`i32::MAX` (`2^31 - 1`). -/
def stop (id : String) (wait_before_kill : Option Nat) :
    Except ErrorKind EngineRequest :=
  if is_blank id then Except.error ErrorKind.validation
  else
    Except.ok (EngineRequest.containerStop id
      (match wait_before_kill with
       | none => WAIT_BEFORE_KILL_SECONDS
       | some s => if 2147483647 < s then 2147483647 else s))

/-- Embedding of `ModuleRuntime::restart`: validate the id, then compose
`container_restart(id, WAIT_BEFORE_KILL_SECONDS)`. -/
def restart (id : String) : Except ErrorKind EngineRequest :=
  if is_blank id then Except.error ErrorKind.validation
  else Except.ok (EngineRequest.containerRestart id WAIT_BEFORE_KILL_SECONDS)

/-- Embedding of `ModuleRuntime::remove` for containers: validate the
id, then compose `container_delete(id, /* remove volumes */ false,
/* force */ true, /* remove link */ false)`. -/
def remove (id : String) : Except ErrorKind EngineRequest :=
  if is_blank id then Except.error ErrorKind.validation
  else Except.ok (EngineRequest.containerDelete id false true false)

/-- Embedding of `ModuleRuntime::logs`: composes
`container_logs(id, options.follow(), true, true, 0, false, tail)`
directly — the id is passed through without any validation. -/
def logs (id : String) (options : LogOptions) :
    Except ErrorKind EngineRequest :=
  Except.ok (EngineRequest.containerLogs id options.follow true true 0 false
    options.tail)

/-- The network-list name filter string
`format!(r#"{{"name":{{"{}":true}}}}"#, id)`. -/
def network_filter (id : String) : String :=
  "\x7b\"name\":\x7b\"" ++ id ++ "\":true\x7d\x7d"

/-- Embedding of `ModuleRuntime::init` against an engine that records
created networks.  `networks` is the engine's current network-name list;
the result is the engine state after the call together with the engine
requests issued.  With no configured network id the call is a no-op
success with no request; otherwise it lists networks matching the id by
name and creates the network only when that list is empty. -/
def init (network_id : Option String) (networks : List String) :
    List String × List EngineRequest :=
  match network_id with
  | none => (networks, [])
  | some id =>
    let existing := networks.filter (fun n => n = id)
    if existing.isEmpty then
      (networks ++ [id],
       [EngineRequest.networkList (network_filter id),
        EngineRequest.networkCreate id])
    else
      (networks, [EngineRequest.networkList (network_filter id)])

/-- Whether a request is a network-create request. -/
def is_network_create : EngineRequest → Bool
  | EngineRequest.networkCreate _ => true
  | _ => false

/-- The `future::join_all` aggregation over unit results: succeeds
exactly when every branch succeeds, otherwise reports a failing branch's
error. -/
def joinAll : List (Except ErrorKind Unit) → Except ErrorKind Unit
  | [] => Except.ok ()
  | Except.error e :: _ => Except.error e
  | Except.ok _ :: rest => joinAll rest

/-- Embedding of `ModuleRuntime::remove_all` after `list()` resolved to
`modules`: invoke `remove` once on every member (`removeResult` is the
engine's response to each removal) and aggregate with `join_all`.  The
second component is the sequence of module names a removal was invoked
on. -/
def remove_all (modules : List String)
    (removeResult : String → Except ErrorKind Unit) :
    Except ErrorKind Unit × List String :=
  (joinAll (modules.map removeResult), modules.map id)

/-- The `ErrorKind::NotFound(_)` pattern of the reconciliation scan's
filter: true exactly for the not-found error kind. -/
def is_not_found : ErrorKind → Bool
  | ErrorKind.notFound _ => true
  | _ => false

/-- Embedding of the `list_with_details` completion processing: the
input is the per-module state-query completions in completion order;
each success is yielded as a pair, each not-found failure is dropped
(`ErrorKind::NotFound(_) => None`), and every other failure is surfaced
as an error item. -/
def list_with_details {M S : Type} (completions : List (M × Except ErrorKind S)) :
    List (Except ErrorKind (M × S)) :=
  completions.filterMap (fun c =>
    match c.2 with
    | Except.ok state => some (Except.ok (c.1, state))
    | Except.error e =>
      if is_not_found e then none else some (Except.error e))

/-- The env list carried by a composed container-create request. -/
def requestEnv : EngineRequest → Option (List Str)
  | EngineRequest.containerCreate options _ => options.env
  | _ => none

/-- Rust's `str::is_char_boundary` over a UTF-8 byte sequence: index 0
and the length are boundaries; an in-range index is a boundary exactly
when the byte there is not a continuation byte (`0x80..0xC0`); an index
past the end is not. -/
def is_char_boundary (s : List Nat) (i : Nat) : Bool :=
  if i = 0 then true
  else
    match s.get? i with
    | some b => decide (b < 128 ∨ 192 ≤ b)
    | none => decide (i = s.length)

/-- Rust's `&s[i..]` on a string of bytes: defined (the remaining bytes)
when `i` is a char boundary, and the panicking out-of-bounds branch
(`none`) otherwise.  In particular `i = 1` on the empty string is out of
bounds. -/
def slice_from (s : List Nat) (i : Nat) : Option (List Nat) :=
  if is_char_boundary s i then some (s.drop i) else none

/-- The sentinel `"Unknown"` name, as bytes. -/
def UNKNOWN_NAME : List Nat := "Unknown".toList.map Char.toNat

/-- The display-name derivation of `list`:
`container.names().iter().next().map_or("Unknown", |s| &s[1..])` — the
sentinel when the engine returned no names, otherwise the first recorded
name sliced from byte index 1. -/
def derive_name (names : List (List Nat)) : Option (List Nat) :=
  match names.head? with
  | none => some UNKNOWN_NAME
  | some first => slice_from first 1

/-- First-binding association lookup, the reference semantics of the
merged `HashMap`. -/
def alookup {α β : Type} [DecidableEq α] (k : α) : List (α × β) → Option β
  | [] => none
  | p :: m => if p.1 = k then some p.2 else alookup k m

/-- The value the last binding of `k` in a sequence of insertions would
leave in the map: later entries shadow earlier ones. -/
def lastVal {α β : Type} [DecidableEq α] (k : α) : List (α × β) → Option β
  | [] => none
  | p :: l =>
    match lastVal k l with
    | some v => some v
    | none => if p.1 = k then some p.2 else none

/-- The keys of an association list. -/
def keys {α β : Type} (m : List (α × β)) : List α := m.map Prod.fst

lemma alookup_map_replace_ne {α β : Type} [DecidableEq α]
    (m : List (α × β)) (k k' : α) (v : β) (hkk : k ≠ k') :
    alookup k (m.map (fun p => if p.1 = k' then (k', v) else p)) =
      alookup k m := by
  induction m with
  | nil => rfl
  | cons p m ih =>
    simp only [List.map_cons, alookup]
    by_cases hp : p.1 = k'
    · rw [if_pos hp]
      have h1 : ¬ ((k', v).1 = k) := fun h => hkk h.symm
      have h2 : ¬ (p.1 = k) := by rw [hp]; exact fun h => hkk h.symm
      rw [if_neg h1, if_neg h2]
      exact ih
    · rw [if_neg hp]
      by_cases hk : p.1 = k
      · rw [if_pos hk, if_pos hk]
      · rw [if_neg hk, if_neg hk]
        exact ih

lemma alookup_map_replace_self {α β : Type} [DecidableEq α]
    (m : List (α × β)) (k' : α) (v : β)
    (h : m.any (fun p => decide (p.1 = k')) = true) :
    alookup k' (m.map (fun p => if p.1 = k' then (k', v) else p)) =
      some v := by
  induction m with
  | nil => simp at h
  | cons p m ih =>
    simp only [List.map_cons, alookup]
    by_cases hp : p.1 = k'
    · rw [if_pos hp, if_pos (show (k', v).1 = k' from rfl)]
    · rw [if_neg hp, if_neg hp]
      apply ih
      simpa [hp] using h

lemma alookup_append {α β : Type} [DecidableEq α]
    (m m' : List (α × β)) (k : α) :
    alookup k (m ++ m') =
      match alookup k m with
      | some v => some v
      | none => alookup k m' := by
  induction m with
  | nil => rfl
  | cons p m ih =>
    simp only [List.cons_append, alookup]
    by_cases hk : p.1 = k
    · rw [if_pos hk, if_pos hk]
    · rw [if_neg hk, if_neg hk]
      exact ih

lemma alookup_eq_none_of_any_eq_false {α β : Type} [DecidableEq α]
    (m : List (α × β)) (k : α)
    (h : m.any (fun p => decide (p.1 = k)) = false) :
    alookup k m = none := by
  induction m with
  | nil => rfl
  | cons p m ih =>
    simp only [List.any_cons, Bool.or_eq_false_iff, decide_eq_false_iff_not] at h
    simp only [alookup, if_neg h.1]
    exact ih h.2

lemma upsert_eq_map {α β : Type} [DecidableEq α]
    (m : List (α × β)) (k' : α) (v : β)
    (h : m.any (fun p => decide (p.1 = k')) = true) :
    upsert m (k', v) = m.map (fun p => if p.1 = k' then (k', v) else p) := by
  unfold upsert
  exact if_pos h

lemma upsert_eq_append {α β : Type} [DecidableEq α]
    (m : List (α × β)) (k' : α) (v : β)
    (h : m.any (fun p => decide (p.1 = k')) = false) :
    upsert m (k', v) = m ++ [(k', v)] := by
  unfold upsert
  exact if_neg (by simp [h])

lemma alookup_upsert {α β : Type} [DecidableEq α]
    (m : List (α × β)) (k' : α) (v : β) (k : α) :
    alookup k (upsert m (k', v)) =
      if k = k' then some v else alookup k m := by
  cases hany : m.any (fun p => decide (p.1 = k')) with
  | true =>
    rw [upsert_eq_map m k' v hany]
    by_cases hk : k = k'
    · subst hk
      rw [if_pos rfl]
      exact alookup_map_replace_self m k v hany
    · rw [if_neg hk]
      exact alookup_map_replace_ne m k k' v hk
  | false =>
    rw [upsert_eq_append m k' v hany, alookup_append]
    by_cases hk : k = k'
    · subst hk
      rw [alookup_eq_none_of_any_eq_false m k hany]
      simp [alookup]
    · have h1 : alookup k [(k', v)] = none := by
        have hne : ¬ ((k', v).1 = k) := fun h => hk h.symm
        simp only [alookup, if_neg hne]
      cases hlk : alookup k m with
      | some w => simp [hlk, if_neg hk]
      | none => simp [hlk, h1, if_neg hk]

lemma alookup_foldl_upsert {α β : Type} [DecidableEq α]
    (l : List (α × β)) (m : List (α × β)) (k : α) :
    alookup k (l.foldl upsert m) =
      match lastVal k l with
      | some v => some v
      | none => alookup k m := by
  induction l generalizing m with
  | nil => rfl
  | cons p l ih =>
    obtain ⟨a, b⟩ := p
    simp only [List.foldl_cons, lastVal]
    rw [ih]
    cases hl : lastVal k l with
    | some v => simp
    | none =>
      simp only
      rw [alookup_upsert]
      by_cases hk : k = a
      · rw [if_pos hk, if_pos (by rw [hk])]
      · rw [if_neg hk, if_neg (fun h => hk h.symm)]

lemma mem_of_alookup_eq_some {α β : Type} [DecidableEq α]
    (m : List (α × β)) (k : α) (v : β) (h : alookup k m = some v) :
    (k, v) ∈ m := by
  induction m with
  | nil => simp [alookup] at h
  | cons p m ih =>
    by_cases hk : p.1 = k
    · simp only [alookup, if_pos hk] at h
      obtain ⟨k', v'⟩ := p
      simp only at hk h
      subst hk
      injection h with h
      subst h
      exact List.mem_cons_self _ _
    · simp only [alookup, if_neg hk] at h
      exact List.mem_cons_of_mem _ (ih h)

lemma eq_not_mem_splitEq_fst (s : Str) : ('=' : Char) ∉ (splitEq s).1 := by
  induction s with
  | nil => simp [splitEq]
  | cons c rest ih =>
    by_cases hc : c = '='
    · simp [splitEq, hc]
    · simp only [splitEq, if_neg hc, List.cons, List.mem_cons]
      rintro (h | h)
      · exact hc h.symm
      · exact ih h

lemma splitEq_entryOf (k v : Str) :
    ('=' : Char) ∉ k → splitEq (entryOf (k, v)) = (k, v) := by
  induction k with
  | nil =>
    intro _
    simp [entryOf, splitEq]
  | cons c k ih =>
    intro h
    have hc : ¬ (c = '=') := fun hh => h (by rw [hh]; exact List.mem_cons_self _ _)
    have hk : ('=' : Char) ∉ k := fun hh => h (List.mem_cons_of_mem _ hh)
    have ht := ih hk
    simp only [entryOf] at ht ⊢
    simp only [List.cons_append, splitEq, if_neg hc]
    change (c :: (splitEq (k ++ '=' :: v)).1, (splitEq (k ++ '=' :: v)).2) = _
    rw [ht]

lemma mem_upsert {α β : Type} [DecidableEq α]
    (m : List (α × β)) (q p : α × β) (h : p ∈ upsert m q) :
    p ∈ m ∨ p = q := by
  unfold upsert at h
  split at h
  · obtain ⟨r, hr, hfr⟩ := List.mem_map.mp h
    split at hfr
    · right
      exact hfr.symm
    · left
      rw [← hfr]
      exact hr
  · rcases List.mem_append.mp h with h' | h'
    · left
      exact h'
    · right
      simpa using h'

lemma mem_foldl_upsert {α β : Type} [DecidableEq α]
    (l m : List (α × β)) (p : α × β) (h : p ∈ l.foldl upsert m) :
    p ∈ m ∨ p ∈ l := by
  induction l generalizing m with
  | nil => left; exact h
  | cons q l ih =>
    simp only [List.foldl_cons] at h
    rcases ih (upsert m q) h with h' | h'
    · rcases mem_upsert m q p h' with h'' | h''
      · left; exact h''
      · right; rw [h'']; exact List.mem_cons_self _ _
    · right; exact List.mem_cons_of_mem _ h'

lemma keys_map_replace {α β : Type} [DecidableEq α]
    (m : List (α × β)) (q : α × β) :
    keys (m.map (fun p => if p.1 = q.1 then q else p)) = keys m := by
  induction m with
  | nil => rfl
  | cons p m ih =>
    simp only [List.map_cons, keys] at ih ⊢
    by_cases hp : p.1 = q.1
    · rw [if_pos hp, ih]
      simp [hp]
    · rw [if_neg hp, ih]

lemma nodup_keys_upsert {α β : Type} [DecidableEq α]
    (m : List (α × β)) (q : α × β) (h : (keys m).Nodup) :
    (keys (upsert m q)).Nodup := by
  unfold upsert
  split
  next hany => rwa [keys_map_replace]
  next hany =>
    have hq : q.1 ∉ keys m := by
      intro hmem
      apply hany
      obtain ⟨p, hp, hfst⟩ := List.mem_map.mp hmem
      exact List.any_eq_true.mpr ⟨p, hp, by simp [hfst]⟩
    simp only [keys, List.map_append, List.map_cons, List.map_nil]
    rw [List.nodup_append]
    refine ⟨h, List.nodup_singleton _, ?_⟩
    intro a ha hmem
    have haq : a = q.1 := by simpa using hmem
    exact hq (haq ▸ ha)

lemma nodup_keys_foldl_upsert {α β : Type} [DecidableEq α]
    (l m : List (α × β)) (h : (keys m).Nodup) :
    (keys (l.foldl upsert m)).Nodup := by
  induction l generalizing m with
  | nil => exact h
  | cons q l ih =>
    simp only [List.foldl_cons]
    exact ih (upsert m q) (nodup_keys_upsert m q h)

lemma map_keyOf_map_entryOf (m : List (Str × Str))
    (hfree : ∀ p ∈ m, ('=' : Char) ∉ p.1) :
    (m.map entryOf).map keyOf = keys m := by
  induction m with
  | nil => rfl
  | cons p m ih =>
    obtain ⟨k, v⟩ := p
    have h1 : ('=' : Char) ∉ k := hfree (k, v) (List.mem_cons_self _ _)
    have h2 : keyOf (entryOf (k, v)) = k := by
      unfold keyOf
      rw [splitEq_entryOf k v h1]
    simp only [List.map_cons, keys, h2]
    rw [ih (fun p hp => hfree p (List.mem_cons_of_mem _ hp))]
    rfl

lemma joinAll_eq_ok_iff (l : List (Except ErrorKind Unit)) :
    joinAll l = Except.ok () ↔ ∀ r ∈ l, r = Except.ok () := by
  induction l with
  | nil => simp [joinAll]
  | cons r l ih =>
    cases r with
    | error e =>
      simp only [joinAll]
      constructor
      · intro h
        exact absurd h (by simp)
      · intro h
        exact absurd (h _ (List.mem_cons_self _ _)) (by simp)
    | ok u =>
      cases u
      simp only [joinAll]
      rw [ih]
      constructor
      · intro h r hr
        rcases List.mem_cons.mp hr with h' | h'
        · rw [h']
        · exact h r h'
      · intro h r hr
        exact h r (List.mem_cons_of_mem _ hr)

/-- C1, counterexample: at `cur = ["K1=v1","K2=v2"]`,
`new = {"K2":"v02","K3":"v3"}` the merge does NOT assign the spec-env
value to the colliding key `K2`: the entry `"K2=v02"` is absent from the
result and `"K2=v2"` (the `createOptions.env` value) is present, so the
result set is not `{"K1=v1","K2=v02","K3=v3"}`. -/
theorem merge_env_spec_env_wins_refuted :
    "K2=v2".toList ∈
        merge_env (some ["K1=v1".toList, "K2=v2".toList])
          [("K2".toList, "v02".toList), ("K3".toList, "v3".toList)] ∧
    "K2=v02".toList ∉
        merge_env (some ["K1=v1".toList, "K2=v2".toList])
          [("K2".toList, "v02".toList), ("K3".toList, "v3".toList)] := by
  decide

/-- C1 (amended): `merge_env(cur, new)` assigns to each key present in
both the value from `cur` (the pre-existing `createOptions.env` wins on
key collision, because `HashMap::extend` with `cur` runs after the map
is seeded with `new`); in particular the last `cur` entry binding a key
determines that key's merged entry, whatever `new` holds.  `create`
merges the environment this way before composing the container-create
request: the env of the issued request is exactly
`merge_env(createOptions.env, spec.env)`. -/
theorem merge_env_cur_env_wins_on_collision
    (cur : List Str) (new_env : List (Str × Str)) (k v : Str)
    (h : lastVal k (cur.map splitEq) = some v) :
    entryOf (k, v) ∈ merge_env (some cur) new_env ∧
    ∀ (name image : String) (opts : ContainerCreateBody) (r : EngineRequest),
      create MODULE_TYPE name image new_env opts = Except.ok r →
      requestEnv r = some (merge_env opts.env new_env) := by
  constructor
  · show entryOf (k, v) ∈
      (cur.foldl (fun acc s => upsert acc (splitEq s))
        (new_env.foldl upsert [])).map entryOf
    have hfold :
        cur.foldl (fun acc s => upsert acc (splitEq s))
            (new_env.foldl upsert []) =
          (cur.map splitEq).foldl upsert (new_env.foldl upsert []) := by
      rw [List.foldl_map]
    rw [hfold]
    have hlk :
        alookup k ((cur.map splitEq).foldl upsert (new_env.foldl upsert [])) =
          some v := by
      rw [alookup_foldl_upsert, h]
    exact List.mem_map_of_mem entryOf (mem_of_alookup_eq_some _ _ _ hlk)
  · intro name image opts r hr
    have hc : create MODULE_TYPE name image new_env opts =
        Except.ok (EngineRequest.containerCreate
          { opts with
              image := some image
              env := some (merge_env opts.env new_env)
              labels := some (upsert (opts.labels.getD [])
                (LABEL_KEY, LABEL_VALUE)) }
          name) := by
      simp [create]
    rw [hc] at hr
    injection hr with hr
    rw [← hr]
    rfl

/-- C1, witness: at the spec's own example the colliding key `K2` keeps
the `cur` value, so `"K2=v2"` is a member of the merged result. -/
theorem merge_env_cur_env_wins_on_collision_witness :
    entryOf ("K2".toList, "v2".toList) ∈
      merge_env (some ["K1=v1".toList, "K2=v2".toList])
        [("K2".toList, "v02".toList), ("K3".toList, "v3".toList)] :=
  (merge_env_cur_env_wins_on_collision
    ["K1=v1".toList, "K2=v2".toList]
    [("K2".toList, "v02".toList), ("K3".toList, "v3".toList)]
    "K2".toList "v2".toList (by decide)).1

/-- C8, counterexample: the claim quantifies over every spec env
mapping, and a mapping whose key itself contains `'='` breaks it.  With
`cur = ["a=x"]` and `new = {"a=b": "c"}` the merged map is seeded with
the binding `"a=b" ↦ "c"` and then extended with the parsed `cur`
binding `"a" ↦ "x"` — two distinct map keys, so both survive — and the
output rebuilds them as the entries `"a=b=c"` and `"a=x"`.  Re-parsing
each entry at its first `'='` (the claim's own definition of the key)
gives `"a"` for both: the result contains two entries with the same
key, refuting the claim at this input. -/
theorem merge_env_duplicate_keys_counterexample :
    "a=b=c".toList ∈
        merge_env (some ["a=x".toList]) [("a=b".toList, "c".toList)] ∧
    "a=x".toList ∈
        merge_env (some ["a=x".toList]) [("a=b".toList, "c".toList)] ∧
    keyOf "a=b=c".toList = keyOf "a=x".toList ∧
    ¬ (((merge_env (some ["a=x".toList])
        [("a=b".toList, "c".toList)]).map keyOf).Nodup) := by
  decide

/-- C8 (amended): provided every key of the spec env mapping contains
no `'='` character — exactly the proviso the counterexample forces,
since an `'='`-bearing map key is re-parsed at a shorter prefix once the
entry is rebuilt as `KEY=VALUE` — the merged environment has no two
entries with the same key, the part of each entry before the first
`'='`.  No hypothesis on `cur` is needed: the claim's hard cases —
`cur` with duplicate keys, keys also present in `new`, entries with no
`'='`, or values containing `'='` — are all covered, because keys
parsed out of `cur` entries by `splitn(2, '=')` never contain `'='`,
and the merged `HashMap` keeps one binding per key. -/
theorem merge_env_keys_nodup
    (cur_env : Option (List Str)) (new_env : List (Str × Str))
    (h : ∀ kv ∈ new_env, ('=' : Char) ∉ kv.1) :
    ((merge_env cur_env new_env).map keyOf).Nodup := by
  have h0nodup : (keys (new_env.foldl upsert ([] : List (Str × Str)))).Nodup :=
    nodup_keys_foldl_upsert new_env [] (by simp [keys])
  have h0free : ∀ p ∈ new_env.foldl upsert ([] : List (Str × Str)),
      ('=' : Char) ∉ p.1 := by
    intro p hp
    rcases mem_foldl_upsert new_env [] p hp with h' | h'
    · simp at h'
    · exact h p h'
  cases cur_env with
  | none =>
    show (((new_env.foldl upsert []).map entryOf).map keyOf).Nodup
    rw [map_keyOf_map_entryOf _ h0free]
    exact h0nodup
  | some cur =>
    show (((cur.foldl (fun acc s => upsert acc (splitEq s))
        (new_env.foldl upsert [])).map entryOf).map keyOf).Nodup
    rw [show cur.foldl (fun acc s => upsert acc (splitEq s))
          (new_env.foldl upsert []) =
        (cur.map splitEq).foldl upsert (new_env.foldl upsert []) from by
      rw [List.foldl_map]]
    have h1free : ∀ p ∈ (cur.map splitEq).foldl upsert
        (new_env.foldl upsert ([] : List (Str × Str))),
        ('=' : Char) ∉ p.1 := by
      intro p hp
      rcases mem_foldl_upsert _ _ p hp with h' | h'
      · exact h0free p h'
      · obtain ⟨s, _, rfl⟩ := List.mem_map.mp h'
        exact eq_not_mem_splitEq_fst s
    rw [map_keyOf_map_entryOf _ h1free]
    exact nodup_keys_foldl_upsert _ _ h0nodup

/-- C8, witness: at the spec's example (whose keys are `'='`-free) the
merged result's keys are pairwise distinct. -/
theorem merge_env_keys_nodup_witness :
    ((merge_env (some ["K1=v1".toList, "K2=v2".toList])
        [("K2".toList, "v02".toList), ("K3".toList, "v3".toList)]).map
      keyOf).Nodup :=
  merge_env_keys_nodup _ _ (by decide)

/-- C2, counterexample: `logs` takes an identifier but performs no
validation — with the empty id it composes and issues the engine's
container-logs request instead of failing with a validation error. -/
theorem logs_blank_identifier_not_validated :
    logs "" { follow := false, tail := "all" } =
      Except.ok (EngineRequest.containerLogs "" false true true 0 false
        "all") := by
  rfl

/-- C2 (amended): for every identifier that is empty or consists only of
whitespace, the operations that validate — `start`, `stop`, `restart`,
container `remove`, and the registry's image remove — fail synchronously
with a validation error and compose no engine request; `logs` is the
exception: it issues its request without validating the id. -/
theorem blank_identifier_rejected_except_logs
    (id : String) (w : Option Nat) (h : is_blank id = true) :
    start id = Except.error ErrorKind.validation ∧
    stop id w = Except.error ErrorKind.validation ∧
    restart id = Except.error ErrorKind.validation ∧
    remove id = Except.error ErrorKind.validation ∧
    image_remove id = Except.error ErrorKind.validation := by
  refine ⟨?_, ?_, ?_, ?_, ?_⟩ <;>
    simp [start, stop, restart, remove, image_remove, h]

/-- C2, witness: the whitespace-only identifier `"     "` is rejected by
every validating operation. -/
theorem blank_identifier_rejected_except_logs_witness :
    start "     " = Except.error ErrorKind.validation ∧
    stop "     " none = Except.error ErrorKind.validation ∧
    restart "     " = Except.error ErrorKind.validation ∧
    remove "     " = Except.error ErrorKind.validation ∧
    image_remove "     " = Except.error ErrorKind.validation :=
  blank_identifier_rejected_except_logs "     " none (by decide)

/-- C4: for a non-blank id, `stop(id, None)` composes a kill-grace value
of exactly 10 seconds, and `stop(id, Some(d))` composes
`min(d, 2^31 - 1)` — second counts above `i32::MAX` are clamped, not
wrapped or rejected. -/
theorem stop_grace_default_and_clamp (id : String)
    (h : is_blank id = false) :
    stop id none = Except.ok (EngineRequest.containerStop id 10) ∧
    ∀ d : Nat, stop id (some d) =
      Except.ok (EngineRequest.containerStop id (min d 2147483647)) := by
  constructor
  · simp [stop, h, WAIT_BEFORE_KILL_SECONDS]
  · intro d
    simp only [stop, h, Bool.false_eq_true, if_false]
    rcases Nat.lt_or_ge 2147483647 d with hd | hd
    · rw [if_pos hd, Nat.min_eq_right (Nat.le_of_lt hd)]
    · rw [if_neg (Nat.not_lt.mpr hd), Nat.min_eq_left hd]

/-- C4, witness: `stop("edgeHub", None)` composes 10 and
`stop("edgeHub", Some(4000000000s))` composes `2147483647 = 2^31 - 1`. -/
theorem stop_grace_default_and_clamp_witness :
    stop "edgeHub" none =
      Except.ok (EngineRequest.containerStop "edgeHub" 10) ∧
    stop "edgeHub" (some 4000000000) =
      Except.ok (EngineRequest.containerStop "edgeHub" 2147483647) := by
  have h := stop_grace_default_and_clamp "edgeHub" (by decide)
  refine ⟨h.1, ?_⟩
  have h2 := h.2 4000000000
  rw [(by decide : min (4000000000 : Nat) 2147483647 = 2147483647)] at h2
  exact h2

/-- C7: `create` rejects every spec whose type differs from the
supported module type with a validation error, before composing any
engine request — the result carries no request at all. -/
theorem create_type_mismatch_validation_error
    (type_ name image : String) (env : List (Str × Str))
    (opts : ContainerCreateBody) (h : type_ ≠ MODULE_TYPE) :
    create type_ name image env opts = Except.error ErrorKind.validation := by
  simp [create, h]

/-- C7, witness: a spec of type `"not_docker"` against the
`"docker"`-typed runtime fails with the validation error. -/
theorem create_type_mismatch_validation_error_witness :
    create "not_docker" "m1" "nginx:latest" []
      { env := none, labels := none, image := none } =
      Except.error ErrorKind.validation :=
  create_type_mismatch_validation_error _ _ _ _ _ (by decide)

/-- C3: for every sequence of per-module state-query completions (in any
completion order), `list_with_details` yields exactly the pairs whose
query succeeded; a module whose query failed with the not-found kind is
dropped silently (no pair and no error for it appears), and a failure of
any other kind is surfaced to the consumer. -/
theorem list_with_details_yields_successes_drops_not_found
    (M S : Type) (completions : List (M × Except ErrorKind S)) :
    (∀ m s, Except.ok (m, s) ∈ list_with_details completions ↔
        (m, Except.ok s) ∈ completions) ∧
    (∀ e, Except.error e ∈ list_with_details completions ↔
        ((∃ m, (m, Except.error e) ∈ completions) ∧
          is_not_found e = false)) := by
  constructor
  · intro m s
    simp only [list_with_details, List.mem_filterMap]
    constructor
    · rintro ⟨⟨m', r⟩, hmem, hf⟩
      cases r with
      | ok s' =>
        simp only at hf
        injection hf with hf
        injection hf with hf
        rw [show m' = m from congrArg Prod.fst hf,
          show s' = s from congrArg Prod.snd hf] at hmem
        exact hmem
      | error e =>
        by_cases hnf : is_not_found e = true
        · simp [hnf] at hf
        · simp [hnf] at hf
    · intro hmem
      exact ⟨(m, Except.ok s), hmem, rfl⟩
  · intro e
    simp only [list_with_details, List.mem_filterMap]
    constructor
    · rintro ⟨⟨m', r⟩, hmem, hf⟩
      cases r with
      | ok s' => simp at hf
      | error e' =>
        by_cases hnf : is_not_found e' = true
        · simp [hnf] at hf
        · simp only [if_neg hnf] at hf
          injection hf with hf
          injection hf with hf
          subst hf
          exact ⟨⟨m', hmem⟩, Bool.not_eq_true _ ▸ hnf⟩
    · rintro ⟨⟨m, hm⟩, hnf⟩
      exact ⟨(m, Except.error e), hm, by simp [hnf]⟩

/-- C5: `init` is idempotent with respect to network creation: with no
configured network id it succeeds with no engine request at all, and
with a configured id two sequential calls against an engine that records
the created network issue at most one network-create request, the second
call issuing none. -/
theorem init_network_create_at_most_once
    (network_id : Option String) (networks : List String) :
    init none networks = (networks, []) ∧
    (init network_id networks).2.countP is_network_create +
        (init network_id
          (init network_id networks).1).2.countP is_network_create ≤ 1 ∧
    (init network_id
      (init network_id networks).1).2.countP is_network_create = 0 := by
  refine ⟨rfl, ?_⟩
  cases network_id with
  | none => simp [init]
  | some id =>
    by_cases hemp : (networks.filter (fun n => n = id)).isEmpty = true
    · have e1 : init (some id) networks =
          (networks ++ [id],
           [EngineRequest.networkList (network_filter id),
            EngineRequest.networkCreate id]) := by
        simp only [init]
        rw [if_pos hemp]
      have h2 : (((networks ++ [id]).filter (fun n => n = id)).isEmpty)
          = false := by
        rw [List.filter_append]
        simp
      have e2 : init (some id) (networks ++ [id]) =
          (networks ++ [id],
           [EngineRequest.networkList (network_filter id)]) := by
        simp only [init]
        rw [if_neg (by simp [h2])]
      rw [e1]
      simp only
      rw [e2]
      simp [List.countP_cons, is_network_create]
    · have e1 : init (some id) networks =
          (networks, [EngineRequest.networkList (network_filter id)]) := by
        simp only [init]
        rw [if_neg hemp]
      rw [e1]
      simp only
      rw [e1]
      simp [List.countP_cons, is_network_create]

/-- C6: over the module set `list` resolved to, `remove_all` invokes
`remove` exactly once per member, and the aggregate succeeds exactly
when every individual remove succeeds — a single failure makes the
aggregate report failure. -/
theorem remove_all_once_per_module_iff_all_succeed
    (modules : List String)
    (removeResult : String → Except ErrorKind Unit) :
    (remove_all modules removeResult).2 = modules ∧
    ((remove_all modules removeResult).1 = Except.ok () ↔
      ∀ m ∈ modules, removeResult m = Except.ok ()) := by
  constructor
  · simp [remove_all]
  · show joinAll (modules.map removeResult) = Except.ok () ↔ _
    rw [joinAll_eq_ok_iff]
    constructor
    · intro h m hm
      exact h _ (List.mem_map_of_mem _ hm)
    · intro h r hr
      obtain ⟨m, hm, rfl⟩ := List.mem_map.mp hr
      exact h m hm

/-- C9: the display name `list` derives for a container record equals
the container's first recorded name with its leading (separator)
character removed — the slice `&s[1..]` — and equals the sentinel
`"Unknown"` when the engine returned an empty names list. -/
theorem list_display_name_derivation (names : List (List Nat)) :
    (names = [] → derive_name names = some UNKNOWN_NAME) ∧
    (∀ first rest, names = first :: rest →
      is_char_boundary first 1 = true →
      derive_name names = some (first.drop 1)) := by
  constructor
  · intro h
    subst h
    rfl
  · intro first rest h hb
    subst h
    simp [derive_name, slice_from, hb]

/-- C9, witness: no names gives `"Unknown"`; the single name `"/ea"`
(bytes `[47, 101, 97]`) gives `"ea"` (bytes `[101, 97]`). -/
theorem list_display_name_derivation_witness :
    derive_name [] = some UNKNOWN_NAME ∧
    derive_name [[47, 101, 97]] = some [101, 97] :=
  ⟨(list_display_name_derivation []).1 rfl,
   (list_display_name_derivation [[47, 101, 97]]).2 [47, 101, 97] [] rfl
     (by decide)⟩

/-- C10: the `&s[1..]` slice of the name derivation is in bounds only
when the first recorded name is non-empty: whenever the derivation
produces a value the first name was non-empty, and on a response whose
first recorded name is the empty string the out-of-bounds branch is
taken and the derivation is not total. -/
theorem derive_name_not_total_on_empty_first_name :
    (∀ rest, derive_name ([] :: rest) = none) ∧
    (∀ first rest, (derive_name (first :: rest)).isSome = true →
      first ≠ []) := by
  constructor
  · intro rest
    rfl
  · intro first rest h hne
    subst hne
    simp [derive_name, slice_from, is_char_boundary] at h

/-- C10, witness: the engine response `[""]` (one empty name) drives the
derivation into the out-of-bounds branch. -/
theorem derive_name_not_total_on_empty_first_name_witness :
    derive_name [([] : List Nat)] = none :=
  derive_name_not_total_on_empty_first_name.1 []

end EdgeletDocker
